import Mathlib

/-
Verification of the IIC (Invoice Identification Code) generator.

The generator extracts seven invoice fields from a document, joins them with
the pipe delimiter, hashes the result with SHA-256, asks an external signing
device for a PKCS#1 v1.5 signature over that digest, and derives the final
code as the lowercase-hex MD5 of the signature bytes.  The caller embeds the
code pair back into the document.

Hash primitives (the Go standard library's crypto.MD5 and crypto.SHA256) are
implemented here concretely over byte lists (naturals < 256).  The safenet
signing device and the etree XML library are external collaborators; they are
modelled from the spec (a signer capability with a fallible session open, a
fallible sign call and a mandatory close; a document as a sequence of
elements carrying named attributes, with first-match-in-document-order
lookup).  Observable effects of the generator (the plaintext print, the sign
call, the deferred session release) are recorded as an explicit event trace.
-/

namespace IIC

/-! ### Byte and word primitives -/

/-- Left-rotation of a 32-bit word represented as a natural below 2^32. -/
def rotl32 (x s : Nat) : Nat :=
  ((x <<< s) ||| (x >>> (32 - s))) % 4294967296

/-- Right-rotation of a 32-bit word represented as a natural below 2^32. -/
def rotr32 (x s : Nat) : Nat :=
  ((x >>> s) ||| (x <<< (32 - s))) % 4294967296

/-- Split a byte list into chunks of `n + 1` bytes (the last chunk may be
shorter when the input length is not a multiple of `n + 1`). -/
def chunksOf (n : Nat) : List Nat → List (List Nat)
  | [] => []
  | x :: xs => (x :: xs).take (n + 1) :: chunksOf n (xs.drop n)
termination_by l => l.length
decreasing_by simp [List.length_drop]; omega

/-- Little-endian 32-bit word from a 4-byte chunk. -/
def leWord : List Nat → Nat
  | b0 :: b1 :: b2 :: b3 :: _ => b0 + 256 * (b1 + 256 * (b2 + 256 * b3))
  | _ => 0

/-- Big-endian 32-bit word from a 4-byte chunk. -/
def beWord : List Nat → Nat
  | b0 :: b1 :: b2 :: b3 :: _ => b3 + 256 * (b2 + 256 * (b1 + 256 * b0))
  | _ => 0

/-- Little-endian serialization of a 32-bit word into 4 bytes. -/
def wordToBytesLE (w : Nat) : List Nat :=
  [w % 256, w / 256 % 256, w / 65536 % 256, w / 16777216 % 256]

/-- Big-endian serialization of a 32-bit word into 4 bytes. -/
def wordToBytesBE (w : Nat) : List Nat :=
  [w / 16777216 % 256, w / 65536 % 256, w / 256 % 256, w % 256]

/-- Little-endian serialization of a 64-bit value into 8 bytes. -/
def toBytesLE8 (n : Nat) : List Nat :=
  (List.range 8).map (fun i => n >>> (8 * i) % 256)

/-- Big-endian serialization of a 64-bit value into 8 bytes. -/
def toBytesBE8 (n : Nat) : List Nat :=
  (List.range 8).map (fun i => n >>> (8 * (7 - i)) % 256)

/-! ### MD5 (RFC 1321), over byte lists -/

/-- Sine-derived MD5 round constants. -/
def md5K : List Nat :=
  [0xd76aa478, 0xe8c7b756, 0x242070db, 0xc1bdceee,
   0xf57c0faf, 0x4787c62a, 0xa8304613, 0xfd469501,
   0x698098d8, 0x8b44f7af, 0xffff5bb1, 0x895cd7be,
   0x6b901122, 0xfd987193, 0xa679438e, 0x49b40821,
   0xf61e2562, 0xc040b340, 0x265e5a51, 0xe9b6c7aa,
   0xd62f105d, 0x02441453, 0xd8a1e681, 0xe7d3fbc8,
   0x21e1cde6, 0xc33707d6, 0xf4d50d87, 0x455a14ed,
   0xa9e3e905, 0xfcefa3f8, 0x676f02d9, 0x8d2a4c8a,
   0xfffa3942, 0x8771f681, 0x6d9d6122, 0xfde5380c,
   0xa4beea44, 0x4bdecfa9, 0xf6bb4b60, 0xbebfbc70,
   0x289b7ec6, 0xeaa127fa, 0xd4ef3085, 0x04881d05,
   0xd9d4d039, 0xe6db99e5, 0x1fa27cf8, 0xc4ac5665,
   0xf4292244, 0x432aff97, 0xab9423a7, 0xfc93a039,
   0x655b59c3, 0x8f0ccc92, 0xffeff47d, 0x85845dd1,
   0x6fa87e4f, 0xfe2ce6e0, 0xa3014314, 0x4e0811a1,
   0xf7537e82, 0xbd3af235, 0x2ad7d2bb, 0xeb86d391]

/-- Per-round MD5 left-rotation amounts. -/
def md5S : List Nat :=
  [7, 12, 17, 22, 7, 12, 17, 22, 7, 12, 17, 22, 7, 12, 17, 22,
   5, 9, 14, 20, 5, 9, 14, 20, 5, 9, 14, 20, 5, 9, 14, 20,
   4, 11, 16, 23, 4, 11, 16, 23, 4, 11, 16, 23, 4, 11, 16, 23,
   6, 10, 15, 21, 6, 10, 15, 21, 6, 10, 15, 21, 6, 10, 15, 21]

/-- One MD5 round on the state (a, b, c, d) with message words `M`. -/
def md5Round (M : List Nat) (st : Nat × Nat × Nat × Nat) (i : Nat) :
    Nat × Nat × Nat × Nat :=
  let a := st.1
  let b := st.2.1
  let c := st.2.2.1
  let d := st.2.2.2
  let f :=
    if i < 16 then (b &&& c) ||| ((b ^^^ 0xffffffff) &&& d)
    else if i < 32 then (d &&& b) ||| ((d ^^^ 0xffffffff) &&& c)
    else if i < 48 then b ^^^ c ^^^ d
    else c ^^^ (b ||| (d ^^^ 0xffffffff))
  let g :=
    if i < 16 then i
    else if i < 32 then (5 * i + 1) % 16
    else if i < 48 then (3 * i + 5) % 16
    else (7 * i) % 16
  let tmp := (f + a + md5K.getD i 0 + M.getD g 0) % 4294967296
  (d, (b + rotl32 tmp (md5S.getD i 0)) % 4294967296, b, c)

/-- MD5 compression of one 64-byte block into the running state. -/
def md5Block (st : Nat × Nat × Nat × Nat) (block : List Nat) :
    Nat × Nat × Nat × Nat :=
  let M := (chunksOf 3 block).map leWord
  let r := (List.range 64).foldl (md5Round M) st
  ((st.1 + r.1) % 4294967296, (st.2.1 + r.2.1) % 4294967296,
   (st.2.2.1 + r.2.2.1) % 4294967296, (st.2.2.2 + r.2.2.2) % 4294967296)

/-- MD5 padding: a 0x80 byte, zeros to 56 mod 64, then the bit length as a
little-endian 64-bit value. -/
def md5pad (msg : List Nat) : List Nat :=
  msg ++ 0x80 :: List.replicate ((64 + 56 - ((msg.length + 1) % 64)) % 64) 0
    ++ toBytesLE8 ((msg.length * 8) % 18446744073709551616)

/-- MD5 digest (16 bytes) of a byte list. -/
def md5 (msg : List Nat) : List Nat :=
  let st := (chunksOf 63 (md5pad msg)).foldl md5Block
    (0x67452301, 0xefcdab89, 0x98badcfe, 0x10325476)
  wordToBytesLE st.1 ++ wordToBytesLE st.2.1 ++ wordToBytesLE st.2.2.1
    ++ wordToBytesLE st.2.2.2

/-! ### SHA-256 (FIPS 180-4), over byte lists -/

/-- SHA-256 round constants (decimal renderings of the FIPS 180-4 table). -/
def shaK : List Nat :=
  [1116352408, 1899447441, 3049323471, 3921009573, 961987163,
   1508970993, 2453635748, 2870763221, 3624381080, 310598401,
   607225278, 1426881987, 1925078388, 2162078206, 2614888103,
   3248222580, 3835390401, 4022224774, 264347078, 604807628,
   770255983, 1249150122, 1555081692, 1996064986, 2554220882,
   2821834349, 2952996808, 3210313671, 3336571891, 3584528711,
   113926993, 338241895, 666307205, 773529912, 1294757372,
   1396182291, 1695183700, 1986661051, 2177026350, 2456956037,
   2730485921, 2820302411, 3259730800, 3345764771, 3516065817,
   3600352804, 4094571909, 275423344, 430227734, 506948616,
   659060556, 883997877, 958139571, 1322822218, 1537002063,
   1747873779, 1955562222, 2024104815, 2227730452, 2361852424,
   2428436474, 2756734187, 3204031479, 3329325298]

/-- Eight-word SHA-256 working state. -/
structure SHAState where
  a : Nat
  b : Nat
  c : Nat
  d : Nat
  e : Nat
  f : Nat
  g : Nat
  h : Nat

/-- One SHA-256 compression round with message schedule `W`. -/
def sha256Round (W : List Nat) (st : SHAState) (i : Nat) : SHAState :=
  let S1 := rotr32 st.e 6 ^^^ rotr32 st.e 11 ^^^ rotr32 st.e 25
  let ch := (st.e &&& st.f) ^^^ ((st.e ^^^ 0xffffffff) &&& st.g)
  let t1 := (st.h + S1 + ch + shaK.getD i 0 + W.getD i 0) % 4294967296
  let S0 := rotr32 st.a 2 ^^^ rotr32 st.a 13 ^^^ rotr32 st.a 22
  let mj := (st.a &&& st.b) ^^^ (st.a &&& st.c) ^^^ (st.b &&& st.c)
  let t2 := (S0 + mj) % 4294967296
  ⟨(t1 + t2) % 4294967296, st.a, st.b, st.c, (st.d + t1) % 4294967296,
   st.e, st.f, st.g⟩

/-- Message-schedule extension step: append the next word. -/
def shaExtend (w : List Nat) : List Nat :=
  let n := w.length
  let w2 := w.getD (n - 2) 0
  let w15 := w.getD (n - 15) 0
  let s0 := rotr32 w15 7 ^^^ rotr32 w15 18 ^^^ (w15 >>> 3)
  let s1 := rotr32 w2 17 ^^^ rotr32 w2 19 ^^^ (w2 >>> 10)
  w ++ [(w.getD (n - 16) 0 + s0 + w.getD (n - 7) 0 + s1) % 4294967296]

/-- SHA-256 compression of one 64-byte block into the running state. -/
def sha256Block (st : SHAState) (block : List Nat) : SHAState :=
  let w0 := (chunksOf 3 block).map beWord
  let W := (List.range 48).foldl (fun w _ => shaExtend w) w0
  let r := (List.range 64).foldl (sha256Round W) st
  ⟨(st.a + r.a) % 4294967296, (st.b + r.b) % 4294967296,
   (st.c + r.c) % 4294967296, (st.d + r.d) % 4294967296,
   (st.e + r.e) % 4294967296, (st.f + r.f) % 4294967296,
   (st.g + r.g) % 4294967296, (st.h + r.h) % 4294967296⟩

/-- SHA-256 padding: a 0x80 byte, zeros to 56 mod 64, then the bit length as
a big-endian 64-bit value. -/
def sha256pad (msg : List Nat) : List Nat :=
  msg ++ 0x80 :: List.replicate ((64 + 56 - ((msg.length + 1) % 64)) % 64) 0
    ++ toBytesBE8 ((msg.length * 8) % 18446744073709551616)

/-- SHA-256 digest (32 bytes) of a byte list. -/
def sha256 (msg : List Nat) : List Nat :=
  let st := (chunksOf 63 (sha256pad msg)).foldl sha256Block
    ⟨1779033703, 3144134277, 1013904242, 2773480762,
     1359893119, 2600822924, 528734635, 1541459225⟩
  wordToBytesBE st.a ++ wordToBytesBE st.b ++ wordToBytesBE st.c
    ++ wordToBytesBE st.d ++ wordToBytesBE st.e ++ wordToBytesBE st.f
    ++ wordToBytesBE st.g ++ wordToBytesBE st.h

/-! ### UTF-8 and lowercase hex encoding -/

/-- UTF-8 encoding of a single character. -/
def utf8Char (c : Char) : List Nat :=
  let n := c.toNat
  if n < 0x80 then [n]
  else if n < 0x800 then [0xc0 + n / 64, 0x80 + n % 64]
  else if n < 0x10000 then
    [0xe0 + n / 4096, 0x80 + n / 64 % 64, 0x80 + n % 64]
  else
    [0xf0 + n / 262144, 0x80 + n / 4096 % 64, 0x80 + n / 64 % 64,
     0x80 + n % 64]

/-- UTF-8 bytes of a string, matching Go's byte-slice conversion. -/
def utf8Bytes (s : String) : List Nat :=
  s.data.flatMap utf8Char

/-- Lowercase hexadecimal digits, in value order. -/
def hexDigitChars : List Char :=
  "0123456789abcdef".data

/-- Lowercase hexadecimal digit for a nibble value. -/
def hexDigit (n : Nat) : Char :=
  hexDigitChars.getD n '0'

/-- Two lowercase hex characters for one byte, as Go's fmt %x renders it. -/
def byteToHex (b : Nat) : List Char :=
  [hexDigit (b / 16 % 16), hexDigit (b % 16)]

/-- Lowercase hexadecimal rendering of a byte list (Go: fmt.Sprintf %x). -/
def hexEncode (bs : List Nat) : String :=
  ⟨bs.flatMap byteToHex⟩

/-! ### The signer collaborator and the event trace -/

/-- Modelled from the spec: the safenet signing device (package
github.com/noshto/dsig/pkg/safenet, not part of this repository).  A signer
is a capability whose session open (Initialize) either fails with an error or
succeeds, and whose sign call (SignPKCS1v15) maps a digest to signature bytes
or an error.  Errors are carried as their messages. -/
structure Signer where
  initErr : Option String
  signFn : List Nat → Except String (List Nat)

/-- Observable effects of one GenerateIIC run: the plaintext print to
standard output, the sign call handed to the device, and the deferred
session release (signer.Finalize). -/
inductive Event where
  | printed (s : String)
  | signCall (digest : List Nat)
  | finalized
deriving DecidableEq

/-! ### The IIC pipeline (iic.go) -/

/-- Canonical plaintext: the seven fields TIN, IssueDateTime, InvOrdNum,
BusinUnitCode, TCRCode, SoftCode, TotPrice joined by the pipe delimiter
(iic.go, fmt.Sprintf with seven %v verbs). -/
def plainIIC (params : Fin 7 → String) : String :=
  params 0 ++ "|" ++ params 1 ++ "|" ++ params 2 ++ "|" ++ params 3 ++ "|"
    ++ params 4 ++ "|" ++ params 5 ++ "|" ++ params 6

/-- Spec-side restatement of the plaintext ("joining InvoiceFields with a
single pipe delimiter, in declared order"), for comparison with plainIIC. -/
def plainTextSpec (params : Fin 7 → String) : String :=
  String.intercalate "|"
    [params 0, params 1, params 2, params 3, params 4, params 5, params 6]

/-- GenerateIIC (iic.go): initialize the signer session, build the
plaintext, print it, hash it with SHA-256, sign the digest, and return the
lowercase-hex MD5 of the signature together with the lowercase-hex
signature.  The Go function returns the triple (IIC, IICSignature, error)
with empty strings on every error path; the event trace records the print,
the sign call and the deferred Finalize.  The Go error checks after the hash
writes are dead branches (Go's hash.Hash.Write never reports an error) and
the hash calls are total here. -/
def GenerateIIC (signer : Signer) (params : Fin 7 → String) :
    (String × String × Option String) × List Event :=
  match signer.initErr with
  | some e => (("", "", some e), [])
  | none =>
    let plain := plainIIC params
    let digest := sha256 (utf8Bytes plain)
    let pre := [Event.printed ("Plain IIC: " ++ plain), Event.signCall digest]
    match signer.signFn digest with
    | Except.error e => (("", "", some e), pre ++ [Event.finalized])
    | Except.ok IICSignature =>
      ((hexEncode (md5 IICSignature), hexEncode IICSignature, none),
       pre ++ [Event.finalized])

/-! ### The document collaborator and field extraction -/

/-- Modelled from the spec: a node of the invoice document (the etree XML
library is not part of this repository).  Only the element tag and its named
attributes matter to the core. -/
structure Element where
  tag : String
  attrs : List (String × String)

/-- Modelled from the spec: a document is its elements in document order. -/
abbrev Doc := List Element

/-- Modelled from the spec: etree's FindElement with a //Tag selector
returns the first element of that tag in document order, or nothing. -/
def findElement (doc : Doc) (selector : String) : Option Element :=
  doc.find? (fun e => selector == "//" ++ e.tag)

/-- Modelled from the spec: etree's SelectAttr returns the first attribute
with the given name, or nothing. -/
def selectAttr (elem : Element) (attrName : String) : Option (String × String) :=
  elem.attrs.find? (fun a => a.1 == attrName)

/-- mapElement (iic.go): apply the closure to the element found by the
selector, or fail naming the element. -/
def mapElement (elemName : String) (doc : Doc)
    (closure : Element → Except String String) : Except String String :=
  match findElement doc elemName with
  | none => Except.error ("can't find element " ++ elemName)
  | some elem => closure elem

/-- mapAttrib (iic.go): apply the closure to the named attribute of the
element, or fail naming the attribute. -/
def mapAttrib (attrName : String) (elem : Element)
    (closure : String × String → Except String String) : Except String String :=
  match selectAttr elem attrName with
  | none => Except.error ("can't find attribute " ++ attrName)
  | some attr => closure attr

/-- attributeOfElement (iic.go): the value of the named attribute of the
element found by the selector. -/
def attributeOfElement (elemName attrName : String) (doc : Doc) :
    Except String String :=
  mapElement elemName doc (fun elem =>
    mapAttrib attrName elem (fun attr => Except.ok attr.2))

/-- Fixed-arity tuple of the seven invoice fields, in declared order. -/
def mkFields (a0 a1 a2 a3 a4 a5 a6 : String) : Fin 7 → String := fun k =>
  match k with
  | ⟨0, _⟩ => a0
  | ⟨1, _⟩ => a1
  | ⟨2, _⟩ => a2
  | ⟨3, _⟩ => a3
  | ⟨4, _⟩ => a4
  | ⟨5, _⟩ => a5
  | ⟨6, _⟩ => a6

/-- parse (iic.go): extract the seven fields in declared order, stopping at
the first failure. -/
def parse (doc : Doc) : Except String (Fin 7 → String) := do
  let TIN ← attributeOfElement "//Seller" "IDNum" doc
  let IssueDateTime ← attributeOfElement "//Invoice" "IssueDateTime" doc
  let InvOrdNum ← attributeOfElement "//Invoice" "InvOrdNum" doc
  let BusinUnitCode ← attributeOfElement "//Invoice" "BusinUnitCode" doc
  let TCRCode ← attributeOfElement "//Invoice" "TCRCode" doc
  let SoftCode ← attributeOfElement "//Invoice" "SoftCode" doc
  let TotPrice ← attributeOfElement "//Invoice" "TotPrice" doc
  return mkFields TIN IssueDateTime InvOrdNum BusinUnitCode TCRCode SoftCode
    TotPrice

/-! ### Embedding the results back into the document -/

/-- Modelled from the spec: etree's RemoveAttr removes the first attribute
with the given key, if any. -/
def removeAttr : List (String × String) → String → List (String × String)
  | [], _ => []
  | a :: rest, key =>
    if a.1 == key then rest else a :: removeAttr rest key

/-- Modelled from the spec: etree's CreateAttr overwrites the value of the
first attribute with the given key, or appends a new attribute. -/
def createAttr : List (String × String) → String → String →
    List (String × String)
  | [], key, v => [(key, v)]
  | a :: rest, key, v =>
    if a.1 == key then (key, v) :: rest else a :: createAttr rest key v

/-- The embed step of WriteIIC (iic.go): remove then set IIC, remove then
set IICSignature, on the Invoice element's attributes. -/
def embedAttrs (attrs : List (String × String)) (iic sig : String) :
    List (String × String) :=
  createAttr (removeAttr (createAttr (removeAttr attrs "IIC") "IIC" iic)
    "IICSignature") "IICSignature" sig

/-- Replace the first element with the given tag using `f`. -/
def updateFirst : Doc → String → (Element → Element) → Doc
  | [], _, _ => []
  | e :: rest, tag, f =>
    if e.tag == tag then f e :: rest else e :: updateFirst rest tag f

/-- Number of attributes with the given key. -/
def countKey (attrs : List (String × String)) (key : String) : Nat :=
  attrs.countP (fun a => a.1 == key)

/-- Value of the first attribute with the given key, if any. -/
def lookupKey (attrs : List (String × String)) (key : String) :
    Option String :=
  (attrs.find? (fun a => a.1 == key)).map Prod.snd

/-- WriteIIC (iic.go), from the loaded document onwards: parse the fields,
generate the code pair, and only on full success embed both attributes into
the Invoice element and produce the document to be persisted.  File loading
and serialization are the out-of-scope document collaborator; an error
result means nothing is written and the source document is untouched. -/
def WriteIIC (doc : Doc) (signer : Signer) :
    Except String Doc × List Event :=
  match parse doc with
  | Except.error e => (Except.error e, [])
  | Except.ok parsed =>
    match GenerateIIC signer parsed with
    | ((IIC, IICSignature, none), evs) =>
      (Except.ok (updateFirst doc "Invoice"
        (fun e => ⟨e.tag, embedAttrs e.attrs IIC IICSignature⟩)), evs)
    | ((_, _, some e), evs) => (Except.error e, evs)

/-! ### Concrete fixtures -/

/-- The spec's golden field tuple. -/
def golden : Fin 7 → String :=
  mkFields "123456789" "2023-01-01T10:00:00" "1" "BU1" "TCR1" "SC1" "100.00"

/-- A signer whose session opens and whose device returns fixed bytes. -/
def okSigner : Signer :=
  ⟨none, fun _ => Except.ok [0, 255]⟩

/-- A second signer with the same observable behaviour as okSigner. -/
def okSigner2 : Signer :=
  ⟨none, fun _ => Except.ok [0, 255]⟩

/-- A signer whose session opens but whose device rejects the sign call. -/
def failSigner : Signer :=
  ⟨none, fun _ => Except.error "device locked"⟩

/-- A well-formed document holding the golden fields. -/
def docFull : Doc :=
  [⟨"Seller", [("IDNum", "123456789")]⟩,
   ⟨"Invoice", [("IssueDateTime", "2023-01-01T10:00:00"), ("InvOrdNum", "1"),
     ("BusinUnitCode", "BU1"), ("TCRCode", "TCR1"), ("SoftCode", "SC1"),
     ("TotPrice", "100.00")]⟩]

/-- A document with an Invoice element but no Seller element. -/
def docNoSeller : Doc :=
  [⟨"Invoice", [("IssueDateTime", "2023-01-01T10:00:00"), ("InvOrdNum", "1"),
     ("BusinUnitCode", "BU1"), ("TCRCode", "TCR1"), ("SoftCode", "SC1"),
     ("TotPrice", "100.00")]⟩]

/-- Whether `needle` occurs as a contiguous segment of `hay`. -/
def containsSeg (needle : List Char) : List Char → Bool
  | [] => needle.isEmpty
  | c :: rest => needle.isPrefixOf (c :: rest) || containsSeg needle rest

/-- The field tuple with the values at positions `i` and `j` exchanged. -/
def swapFields (p : Fin 7 → String) (i j : Fin 7) : Fin 7 → String :=
  fun k => if k = i then p j else if k = j then p i else p k

/-- Character lists joined by the pipe delimiter, with no leading or
trailing delimiter. -/
def pjoin : List (List Char) → List Char
  | [] => []
  | [x] => x
  | x :: y :: rest => x ++ '|' :: pjoin (y :: rest)

/-- The seven field positions in declared order. -/
def fieldIdx : List (Fin 7) := [0, 1, 2, 3, 4, 5, 6]

/-! ### Hex and digest length lemmas -/

theorem flatMap_byteToHex_length (bs : List Nat) :
    (bs.flatMap byteToHex).length = 2 * bs.length := by
  induction bs with
  | nil => rfl
  | cons b rest ih => simp [byteToHex, ih]; omega

theorem hexEncode_length (bs : List Nat) :
    (hexEncode bs).length = 2 * bs.length :=
  flatMap_byteToHex_length bs

theorem md5_length (msg : List Nat) : (md5 msg).length = 16 := by
  simp [md5, wordToBytesLE]

theorem hexDigit_mem (n : Nat) : hexDigit n ∈ hexDigitChars := by
  unfold hexDigit
  rcases Nat.lt_or_ge n 16 with h | h
  · interval_cases n <;> decide
  · rw [List.getD_eq_default]
    · decide
    · simpa [hexDigitChars] using h

theorem hexEncode_mem (bs : List Nat) :
    ∀ c ∈ (hexEncode bs).data, c ∈ hexDigitChars := by
  intro c hc
  have hc' : c ∈ bs.flatMap byteToHex := hc
  rw [List.mem_flatMap] at hc'
  obtain ⟨b, _, hcb⟩ := hc'
  simp only [byteToHex, List.mem_cons, List.not_mem_nil, or_false] at hcb
  rcases hcb with rfl | rfl
  · exact hexDigit_mem _
  · exact hexDigit_mem _

/-! ### Claim theorems -/

/-- Claim C1: on a successful run, GenerateIIC returns as its first string
the lowercase hex of the 16-byte MD5 of the signature bytes the signer
produced over the SHA-256 digest of the plaintext (hence exactly 32
lowercase hex characters), and as its second string the lowercase hex of
those signature bytes, of length twice the signature's byte length. -/
theorem C1_outputs (signer : Signer) (p : Fin 7 → String) (sig : List Nat)
    (hinit : signer.initErr = none)
    (hsign : signer.signFn (sha256 (utf8Bytes (plainIIC p))) = Except.ok sig) :
    (GenerateIIC signer p).1 = (hexEncode (md5 sig), hexEncode sig, none) ∧
    (hexEncode (md5 sig)).length = 32 ∧
    (∀ c ∈ (hexEncode (md5 sig)).data, c ∈ hexDigitChars) ∧
    (hexEncode sig).length = 2 * sig.length := by
  refine ⟨?_, ?_, hexEncode_mem _, hexEncode_length _⟩
  · simp [GenerateIIC, hinit, hsign]
  · rw [hexEncode_length, md5_length]

/-- Witness for C1 at a concrete signer and the golden field tuple. -/
theorem C1_outputs_witness :
    (GenerateIIC okSigner golden).1 =
      (hexEncode (md5 [0, 255]), hexEncode [0, 255], none) ∧
    (hexEncode (md5 [0, 255])).length = 32 ∧
    (∀ c ∈ (hexEncode (md5 [0, 255])).data, c ∈ hexDigitChars) ∧
    (hexEncode [0, 255]).length = 2 * ([0, 255] : List Nat).length :=
  C1_outputs okSigner golden [0, 255] rfl rfl

/-- Claim C2: the plaintext is the seven fields joined in declared order by
a single pipe, with no leading or trailing delimiter and no normalization;
for fields A..G it is exactly A|B|C|D|E|F|G. -/
theorem C2_plaintext (p : Fin 7 → String) :
    plainIIC p = plainTextSpec p ∧
    plainIIC (mkFields "A" "B" "C" "D" "E" "F" "G") = "A|B|C|D|E|F|G" :=
  ⟨rfl, by decide⟩

/-! ### Pipe-join injectivity on pipe-free fields -/

theorem pipe_split_inj (a : List Char) : ∀ b u v : List Char,
    '|' ∉ a → '|' ∉ b → a ++ '|' :: u = b ++ '|' :: v → a = b ∧ u = v := by
  induction a with
  | nil =>
    intro b u v _ hb h
    cases b with
    | nil => simpa using h
    | cons y ys =>
      simp only [List.nil_append, List.cons_append, List.cons.injEq] at h
      obtain ⟨h1, _⟩ := h
      subst h1
      exact absurd (List.mem_cons_self _ _) hb
  | cons x xs ih =>
    intro b u v ha hb h
    cases b with
    | nil =>
      simp only [List.cons_append, List.nil_append, List.cons.injEq] at h
      obtain ⟨h1, _⟩ := h
      subst h1
      exact absurd (List.mem_cons_self _ _) ha
    | cons y ys =>
      simp only [List.cons_append, List.cons.injEq] at h
      obtain ⟨h1, h2⟩ := h
      have hxs : '|' ∉ xs := fun hm => ha (List.mem_cons_of_mem _ hm)
      have hys : '|' ∉ ys := fun hm => hb (List.mem_cons_of_mem _ hm)
      obtain ⟨e1, e2⟩ := ih ys u v hxs hys h2
      exact ⟨by rw [h1, e1], e2⟩

theorem pjoin_inj (l1 : List (List Char)) : ∀ l2 : List (List Char),
    l1.length = l2.length → (∀ x ∈ l1, '|' ∉ x) → (∀ x ∈ l2, '|' ∉ x) →
    pjoin l1 = pjoin l2 → l1 = l2 := by
  induction l1 with
  | nil =>
    intro l2 hlen _ _ _
    cases l2 with
    | nil => rfl
    | cons y ys =>
      simp only [List.length_nil, List.length_cons] at hlen
      omega
  | cons x xs ih =>
    intro l2 hlen h1 h2 hj
    cases l2 with
    | nil =>
      simp only [List.length_nil, List.length_cons] at hlen
      omega
    | cons y ys =>
      cases xs with
      | nil =>
        cases ys with
        | nil =>
          have hxy : x = y := hj
          rw [hxy]
        | cons y2 ys2 =>
          simp only [List.length_nil, List.length_cons] at hlen
          omega
      | cons x2 xs2 =>
        cases ys with
        | nil =>
          simp only [List.length_nil, List.length_cons] at hlen
          omega
        | cons y2 ys2 =>
          have hj' : x ++ '|' :: pjoin (x2 :: xs2) =
              y ++ '|' :: pjoin (y2 :: ys2) := hj
          obtain ⟨e1, e2⟩ := pipe_split_inj x y _ _
            (h1 x (List.mem_cons_self _ _)) (h2 y (List.mem_cons_self _ _)) hj'
          have e3 := ih (y2 :: ys2) (by simpa using hlen)
            (fun z hz => h1 z (List.mem_cons_of_mem _ hz))
            (fun z hz => h2 z (List.mem_cons_of_mem _ hz)) e2
          rw [e1, e3]

theorem map_eq_all {α β : Type} (f g : α → β) :
    ∀ l : List α, l.map f = l.map g → ∀ a ∈ l, f a = g a := by
  intro l
  induction l with
  | nil =>
    intro _ a ha
    simp at ha
  | cons x xs ih =>
    intro h a ha
    simp only [List.map_cons, List.cons.injEq] at h
    rcases List.mem_cons.mp ha with rfl | hm
    · exact h.1
    · exact ih h.2 a hm

theorem fieldIdx_mem (i : Fin 7) : i ∈ fieldIdx := by
  revert i
  decide

theorem plainIIC_data (p : Fin 7 → String) :
    (plainIIC p).data =
      pjoin (fieldIdx.map (fun k => (p k).data)) := by
  have hpipe : ("|" : String).data = ['|'] := rfl
  simp [plainIIC, fieldIdx, pjoin, String.data_append, hpipe]

/-! ### Claim theorems -/

/-- Counterexample to claim C3: with the Seller element absent, the
extraction error is exactly the element message, and the requested
attribute name IDNum appears nowhere in it — the error does not name both
the node and the attribute. -/
theorem C3_counterexample :
    parse docNoSeller = Except.error "can't find element //Seller" ∧
    containsSeg "IDNum".data "can't find element //Seller".data = false := by
  constructor
  · rfl
  · decide

/-- Claim C3 amended: each extraction error names the missing item only —
a missing element yields exactly the message naming the element selector
(without the attribute), and a present element lacking the attribute yields
exactly the message naming the attribute (without the element). -/
theorem C3_error_names (doc : Doc) (elemName attrName : String) :
    (findElement doc elemName = none →
      attributeOfElement elemName attrName doc =
        Except.error ("can't find element " ++ elemName)) ∧
    (∀ elem, findElement doc elemName = some elem →
      selectAttr elem attrName = none →
      attributeOfElement elemName attrName doc =
        Except.error ("can't find attribute " ++ attrName)) := by
  constructor
  · intro h
    simp [attributeOfElement, mapElement, h]
  · intro elem h1 h2
    simp [attributeOfElement, mapElement, h1, mapAttrib, h2]

/-- Witness for the amended C3 on concrete documents: one with the Seller
element absent, one whose Invoice element lacks the requested attribute. -/
theorem C3_error_names_witness :
    attributeOfElement "//Seller" "IDNum" docNoSeller =
      Except.error ("can't find element " ++ "//Seller") ∧
    attributeOfElement "//Invoice" "OperatorCode" docFull =
      Except.error ("can't find attribute " ++ "OperatorCode") :=
  ⟨(C3_error_names docNoSeller "//Seller" "IDNum").1 rfl,
   (C3_error_names docFull "//Invoice" "OperatorCode").2
     ⟨"Invoice", [("IssueDateTime", "2023-01-01T10:00:00"), ("InvOrdNum", "1"),
       ("BusinUnitCode", "BU1"), ("TCRCode", "TCR1"), ("SoftCode", "SC1"),
       ("TotPrice", "100.00")]⟩ rfl rfl⟩

/-- Claim C5: extraction short-circuits — whenever parse fails, WriteIIC
returns that error with an empty event trace, so the signer is never
invoked and no partial field tuple ever reaches the generator. -/
theorem C5_short_circuit (doc : Doc) (signer : Signer) (e : String)
    (h : parse doc = Except.error e) :
    WriteIIC doc signer = (Except.error e, []) ∧
    ∀ d, Event.signCall d ∉ (WriteIIC doc signer).2 := by
  have h1 : WriteIIC doc signer = (Except.error e, []) := by
    simp [WriteIIC, h]
  exact ⟨h1, by simp [h1]⟩

/-- Witness for C5 at a concrete document missing the Seller element. -/
theorem C5_short_circuit_witness :
    WriteIIC docNoSeller okSigner =
      (Except.error "can't find element //Seller", []) ∧
    ∀ d, Event.signCall d ∉ (WriteIIC docNoSeller okSigner).2 :=
  C5_short_circuit docNoSeller okSigner "can't find element //Seller" rfl

/-- Claim C6: when the sign call fails, GenerateIIC returns that error with
both strings empty, and WriteIIC propagates the error without producing a
modified document — attributes are only embedded after a fully successful
generate call. -/
theorem C6_sign_failure (signer : Signer) (p : Fin 7 → String) (e : String)
    (doc : Doc) (hinit : signer.initErr = none)
    (hsign : signer.signFn (sha256 (utf8Bytes (plainIIC p))) =
      Except.error e)
    (hdoc : parse doc = Except.ok p) :
    (GenerateIIC signer p).1 = ("", "", some e) ∧
    (WriteIIC doc signer).1 = Except.error e := by
  have h1 : (GenerateIIC signer p).1 = ("", "", some e) := by
    simp [GenerateIIC, hinit, hsign]
  refine ⟨h1, ?_⟩
  rcases hG : GenerateIIC signer p with ⟨⟨s1, s2, err⟩, evs⟩
  rw [hG] at h1
  simp only [Prod.mk.injEq] at h1
  obtain ⟨rfl, rfl, rfl⟩ := h1
  simp [WriteIIC, hdoc, hG]

/-- Witness for C6 at a concrete rejecting signer and a full document. -/
theorem C6_sign_failure_witness :
    (GenerateIIC failSigner golden).1 = ("", "", some "device locked") ∧
    (WriteIIC docFull failSigner).1 = Except.error "device locked" :=
  C6_sign_failure failSigner golden "device locked" docFull rfl rfl rfl

/-- Counterexample to claim C4: swapping two distinct positions that hold
equal values leaves the plaintext unchanged. -/
theorem C4_counterexample :
    (0 : Fin 7) ≠ (1 : Fin 7) ∧
    plainIIC (swapFields (mkFields "A" "A" "A" "A" "A" "A" "A") 0 1) =
      plainIIC (mkFields "A" "A" "A" "A" "A" "A" "A") := by
  decide

/-- Claim C4 amended: swapping the values at two distinct positions changes
the plaintext provided the two values differ and no field value contains
the pipe delimiter (equal values swap to the same plaintext, and embedded
pipes can make distinct splits join identically). -/
theorem C4_swap_changes (p : Fin 7 → String) (i j : Fin 7) (_hij : i ≠ j)
    (hv : p i ≠ p j) (hp : ∀ k, '|' ∉ (p k).data) :
    plainIIC (swapFields p i j) ≠ plainIIC p := by
  intro heq
  have hdata := congrArg String.data heq
  rw [plainIIC_data, plainIIC_data] at hdata
  have hpf1 : ∀ x ∈ fieldIdx.map (fun k => ((swapFields p i j) k).data),
      '|' ∉ x := by
    intro x hx
    rw [List.mem_map] at hx
    obtain ⟨k, _, rfl⟩ := hx
    unfold swapFields
    split
    · exact hp j
    · split
      · exact hp i
      · exact hp k
  have hpf2 : ∀ x ∈ fieldIdx.map (fun k => (p k).data), '|' ∉ x := by
    intro x hx
    rw [List.mem_map] at hx
    obtain ⟨k, _, rfl⟩ := hx
    exact hp k
  have hlists := pjoin_inj _ _ (by simp) hpf1 hpf2 hdata
  have hk := map_eq_all _ _ fieldIdx hlists i (fieldIdx_mem i)
  have hsw : swapFields p i j i = p j := by simp [swapFields]
  rw [hsw] at hk
  exact hv (String.ext hk).symm

/-- Witness for the amended C4 at distinct pipe-free fields. -/
theorem C4_swap_changes_witness :
    plainIIC (swapFields (mkFields "A" "B" "C" "D" "E" "F" "G") 0 1) ≠
      plainIIC (mkFields "A" "B" "C" "D" "E" "F" "G") :=
  C4_swap_changes (mkFields "A" "B" "C" "D" "E" "F" "G") 0 1 (by decide)
    (by decide) (by decide)

/-- Claim C8: on every exit path on which the session was initialized, the
deferred release runs exactly once, as the last action before return. -/
theorem C8_finalize_once (signer : Signer) (p : Fin 7 → String)
    (hinit : signer.initErr = none) :
    (GenerateIIC signer p).2.countP (fun ev => ev == Event.finalized) = 1 ∧
    (GenerateIIC signer p).2.getLast? = some Event.finalized := by
  rcases hs : signer.signFn (sha256 (utf8Bytes (plainIIC p))) with e | sig <;>
    simp [GenerateIIC, hinit, hs, List.countP_cons]

/-- Witness for C8 at a concrete signer that fails to sign. -/
theorem C8_finalize_once_witness :
    (GenerateIIC failSigner golden).2.countP
      (fun ev => ev == Event.finalized) = 1 ∧
    (GenerateIIC failSigner golden).2.getLast? = some Event.finalized :=
  C8_finalize_once failSigner golden rfl

/-- Claim C7 support: removing an attribute yields a sublist. -/
theorem removeAttr_sublist (attrs : List (String × String)) (k : String) :
    List.Sublist (removeAttr attrs k) attrs := by
  induction attrs with
  | nil => exact List.Sublist.refl _
  | cons a rest ih =>
    simp only [removeAttr]
    split
    · exact List.sublist_cons_self _ _
    · exact ih.cons₂ a

/-- Claim C7 support: removing the only occurrence of a key leaves none. -/
theorem countKey_removeAttr_self (attrs : List (String × String))
    (k : String) (h : countKey attrs k ≤ 1) :
    countKey (removeAttr attrs k) k = 0 := by
  induction attrs with
  | nil => rfl
  | cons a rest ih =>
    simp only [countKey, List.countP_cons] at h
    simp only [removeAttr]
    by_cases hk : (a.1 == k) = true
    · rw [if_pos hk] at h
      rw [if_pos hk]
      simp only [countKey]
      omega
    · rw [if_neg hk] at h
      rw [if_neg hk]
      simp only [countKey, List.countP_cons]
      rw [if_neg hk]
      have := ih (by simp only [countKey]; omega)
      simp only [countKey] at this
      omega

/-- Claim C7 support: creating an absent attribute appends it. -/
theorem createAttr_append (attrs : List (String × String)) (k v : String)
    (h : countKey attrs k = 0) :
    createAttr attrs k v = attrs ++ [(k, v)] := by
  induction attrs with
  | nil => rfl
  | cons a rest ih =>
    simp only [countKey, List.countP_cons] at h
    have hk : ¬ (a.1 == k) = true := by
      intro hb
      rw [if_pos hb] at h
      omega
    rw [if_neg hk] at h
    simp only [createAttr]
    rw [if_neg hk]
    simp only [List.cons_append, List.cons.injEq, true_and]
    exact ih (by simp only [countKey]; omega)

/-- Claim C7 support: removal commutes with a trailing other-key pair. -/
theorem removeAttr_append_single (l : List (String × String))
    (k k' v : String) (hne : (k' == k) = false) :
    removeAttr (l ++ [(k', v)]) k = removeAttr l k ++ [(k', v)] := by
  induction l with
  | nil => simp [removeAttr, hne]
  | cons a rest ih =>
    by_cases hk : (a.1 == k) = true
    · simp [removeAttr, hk]
    · simp [removeAttr, hk, ih]

/-- Claim C7 support: removal skips a key-free left part. -/
theorem removeAttr_append_left_zero (l1 l2 : List (String × String))
    (k : String) (h : countKey l1 k = 0) :
    removeAttr (l1 ++ l2) k = l1 ++ removeAttr l2 k := by
  induction l1 with
  | nil => rfl
  | cons a rest ih =>
    simp only [countKey, List.countP_cons] at h
    have hk : ¬ (a.1 == k) = true := by
      intro hb
      rw [if_pos hb] at h
      omega
    rw [if_neg hk] at h
    simp only [List.cons_append, removeAttr]
    rw [if_neg hk]
    simp only [List.cons.injEq, true_and]
    exact ih (by simp only [countKey]; omega)

/-- Claim C7 support: lookup skips a key-free left part. -/
theorem lookupKey_append_left_zero (l1 l2 : List (String × String))
    (k : String) (h : countKey l1 k = 0) :
    lookupKey (l1 ++ l2) k = lookupKey l2 k := by
  induction l1 with
  | nil => rfl
  | cons a rest ih =>
    simp only [countKey, List.countP_cons] at h
    have hk : ¬ (a.1 == k) = true := by
      intro hb
      rw [if_pos hb] at h
      omega
    rw [if_neg hk] at h
    have hkf : (a.1 == k) = false := by
      simpa using hk
    simp only [List.cons_append, lookupKey] at ih ⊢
    simp only [List.find?, hkf]
    exact ih (by simp only [countKey]; omega)

/-- Claim C7 support: normal form of the embed step on well-formed
attribute lists — strip both keys, then append the fresh pair of
attributes at the end. -/
theorem embedAttrs_eq (attrs : List (String × String)) (iic sig : String)
    (h1 : countKey attrs "IIC" ≤ 1) (h2 : countKey attrs "IICSignature" ≤ 1) :
    embedAttrs attrs iic sig =
      removeAttr (removeAttr attrs "IIC") "IICSignature"
        ++ [("IIC", iic), ("IICSignature", sig)] := by
  unfold embedAttrs
  have c1 : countKey (removeAttr attrs "IIC") "IIC" = 0 :=
    countKey_removeAttr_self _ _ h1
  have c2 : countKey (removeAttr attrs "IIC") "IICSignature" ≤ 1 :=
    le_trans ((removeAttr_sublist attrs "IIC").countP_le _) h2
  rw [createAttr_append _ _ _ c1]
  rw [removeAttr_append_single _ _ _ _ (by decide)]
  have c3 : countKey (removeAttr (removeAttr attrs "IIC") "IICSignature"
      ++ [("IIC", iic)]) "IICSignature" = 0 := by
    simp only [countKey, List.countP_append]
    have := countKey_removeAttr_self _ _ c2
    simp only [countKey] at this
    simp [this]
  rw [createAttr_append _ _ _ c3]
  simp

/-- Claim C7: the embed step overwrites — on an Invoice element whose
attribute keys are not already duplicated, after one application (and
equally after two applications with the same values) the element carries
exactly one IIC attribute and exactly one IICSignature attribute, each
holding the latest value. -/
theorem C7_embed_idempotent (attrs : List (String × String))
    (iic sig : String) (h1 : countKey attrs "IIC" ≤ 1)
    (h2 : countKey attrs "IICSignature" ≤ 1) :
    countKey (embedAttrs attrs iic sig) "IIC" = 1 ∧
    countKey (embedAttrs attrs iic sig) "IICSignature" = 1 ∧
    lookupKey (embedAttrs attrs iic sig) "IIC" = some iic ∧
    lookupKey (embedAttrs attrs iic sig) "IICSignature" = some sig ∧
    embedAttrs (embedAttrs attrs iic sig) iic sig =
      embedAttrs attrs iic sig := by
  have eII : (("IIC" : String) == "IIC") = true := by decide
  have eSI : (("IIC" : String) == "IICSignature") = false := by decide
  have eIS : (("IICSignature" : String) == "IIC") = false := by decide
  have eSS : (("IICSignature" : String) == "IICSignature") = true := by decide
  have hbI : countKey (removeAttr (removeAttr attrs "IIC") "IICSignature")
      "IIC" = 0 := by
    have h0 : countKey (removeAttr attrs "IIC") "IIC" = 0 :=
      countKey_removeAttr_self _ _ h1
    have hle := (removeAttr_sublist (removeAttr attrs "IIC")
      "IICSignature").countP_le (fun a => a.1 == "IIC")
    simp only [countKey] at h0 ⊢
    omega
  have hbS : countKey (removeAttr (removeAttr attrs "IIC") "IICSignature")
      "IICSignature" = 0 :=
    countKey_removeAttr_self _ _
      (le_trans ((removeAttr_sublist attrs "IIC").countP_le _) h2)
  have hNF := embedAttrs_eq attrs iic sig h1 h2
  have cI : countKey (embedAttrs attrs iic sig) "IIC" = 1 := by
    rw [hNF]
    have hbI' : List.countP (fun a => a.1 == "IIC")
        (removeAttr (removeAttr attrs "IIC") "IICSignature") = 0 := hbI
    simp [countKey, List.countP_append, List.countP_cons, eII, eIS, hbI']
  have cS : countKey (embedAttrs attrs iic sig) "IICSignature" = 1 := by
    rw [hNF]
    have hbS' : List.countP (fun a => a.1 == "IICSignature")
        (removeAttr (removeAttr attrs "IIC") "IICSignature") = 0 := hbS
    simp [countKey, List.countP_append, List.countP_cons, eSI, eSS, hbS']
  refine ⟨cI, cS, ?_, ?_, ?_⟩
  · rw [hNF, lookupKey_append_left_zero _ _ _ hbI]
    simp [lookupKey, List.find?, eII]
  · rw [hNF, lookupKey_append_left_zero _ _ _ hbS]
    simp [lookupKey, List.find?, eIS, eSS]
  · rw [embedAttrs_eq (embedAttrs attrs iic sig) iic sig (by omega)
      (by omega)]
    rw [hNF]
    rw [removeAttr_append_left_zero _ _ _ hbI]
    have r1 : removeAttr [("IIC", iic), ("IICSignature", sig)] "IIC" =
        [("IICSignature", sig)] := by
      simp [removeAttr, eII]
    rw [r1]
    rw [removeAttr_append_left_zero _ _ _ hbS]
    have r2 : removeAttr [("IICSignature", sig)] "IICSignature" = [] := by
      simp [removeAttr, eSS]
    rw [r2]
    simp

/-- Witness for C7 at a concrete attribute list carrying a stale IIC. -/
theorem C7_embed_idempotent_witness :
    countKey (embedAttrs [("IIC", "old"), ("Version", "1")] "newcode"
      "newsig") "IIC" = 1 ∧
    countKey (embedAttrs [("IIC", "old"), ("Version", "1")] "newcode"
      "newsig") "IICSignature" = 1 ∧
    lookupKey (embedAttrs [("IIC", "old"), ("Version", "1")] "newcode"
      "newsig") "IIC" = some "newcode" ∧
    lookupKey (embedAttrs [("IIC", "old"), ("Version", "1")] "newcode"
      "newsig") "IICSignature" = some "newsig" ∧
    embedAttrs (embedAttrs [("IIC", "old"), ("Version", "1")] "newcode"
      "newsig") "newcode" "newsig" =
      embedAttrs [("IIC", "old"), ("Version", "1")] "newcode" "newsig" :=
  C7_embed_idempotent [("IIC", "old"), ("Version", "1")] "newcode" "newsig"
    (by decide) (by decide)

/-- Claim C9: GenerateIIC is deterministic — two signers with the same
session-open outcome and the same sign behaviour yield identical results
(value pair and trace) on the same field tuple. -/
theorem C9_deterministic (s1 s2 : Signer) (p : Fin 7 → String)
    (hi : s1.initErr = s2.initErr) (hs : ∀ d, s1.signFn d = s2.signFn d) :
    GenerateIIC s1 p = GenerateIIC s2 p := by
  simp only [GenerateIIC, hi, hs]

/-- Witness for C9 at two concrete signers with equal behaviour. -/
theorem C9_deterministic_witness :
    GenerateIIC okSigner golden = GenerateIIC okSigner2 golden :=
  C9_deterministic okSigner okSigner2 golden rfl (fun _ => rfl)

/-- Claim C10: whenever the session opens, the plaintext is printed to
standard output unconditionally — it is the first observable event, before
the sign call, so it never contains signature bytes — on the success path
and on the signing-failure path alike. -/
theorem C10_prints_plaintext (signer : Signer) (p : Fin 7 → String)
    (hinit : signer.initErr = none) :
    (GenerateIIC signer p).2.head? =
      some (Event.printed ("Plain IIC: " ++ plainIIC p)) := by
  rcases hs : signer.signFn (sha256 (utf8Bytes (plainIIC p))) with e | sig <;>
    simp [GenerateIIC, hinit, hs]

/-- Witness for C10 at a concrete signer whose sign call fails. -/
theorem C10_prints_plaintext_witness :
    (GenerateIIC failSigner golden).2.head? =
      some (Event.printed ("Plain IIC: " ++ plainIIC golden)) :=
  C10_prints_plaintext failSigner golden rfl

end IIC
